import Mathlib

/-!
Verification of the note-mapping, transposition and playback-scheduling core
of the `wwm-autobard` repository, as a shallow embedding in Lean 4.

Sources embedded (paths relative to the repository root):
* `src/autobard/models/enums.py` — `Pitch`, `NoteName`, `Accidental`, `PlaybackState`
* `src/autobard/models/note.py` — `NoteEvent`, `GameNote`, `KeyPress`
* `src/autobard/models/mapping_table.py` — key lookup tables
* `src/autobard/core/note_converter.py` — `NoteConverter.convert`
* `src/autobard/core/key_mapping.py` — `KeyMapper.get_key_press`
* `src/autobard/core/transposer.py` — `calculate_offset`, `find_best_window`,
  `filter_to_window`
* `src/autobard/core/compiled_song.py` — `CompiledSong.compile`,
  `CompiledSong._calculate_density`
* `src/autobard/app.py` — `stop`, `pause`, `start`, and the per-note delay
  computation of `_play_events` / `_play_optimized`

Python `float` time values are modelled as `ℚ` (the values manipulated here
stay on small dyadic grids where float arithmetic is exact), MIDI pitches and
velocities as `Int`, and Python dict lookups as `Option`-valued functions.
Python's `round` (banker's rounding, round-half-to-even) is modelled
explicitly by `pyRound`.
-/

namespace AutoBard

/-- Pitch levels for the game's 3-octave range (`models/enums.py`). -/
inductive Pitch
  | HIGH
  | MID
  | LOW
deriving DecidableEq, Repr

/-- Note names in Jianpu style, values 1..7 (`models/enums.py`). -/
inductive NoteName
  | DO
  | RE
  | MI
  | FA
  | SOL
  | LA
  | TI
deriving DecidableEq, Repr

/-- Numeric value of a `NoteName`, as assigned in `models/enums.py`
(`DO = 1` … `TI = 7`).  Used to phrase degree sets like `{1,4,5}`. -/
def noteDegree : NoteName → Nat
  | .DO => 1
  | .RE => 2
  | .MI => 3
  | .FA => 4
  | .SOL => 5
  | .LA => 6
  | .TI => 7

/-- Note accidentals (`models/enums.py`). -/
inductive Accidental
  | NATURAL
  | SHARP
  | FLAT
deriving DecidableEq, Repr

/-- States for the playback controller (`models/enums.py`). -/
inductive PlaybackState
  | READY
  | PLAYING
  | PAUSED
  | STOPPED
deriving DecidableEq, Repr

/-- A note in the game's notation system (`models/note.py`, `GameNote`). -/
structure GameNote where
  pitch : Pitch
  name : NoteName
  accidental : Accidental
deriving DecidableEq, Repr

/-- A keyboard action (`models/note.py`, `KeyPress`): a key plus an ordered
tuple of modifier keys. -/
structure KeyPress where
  key : String
  modifiers : List String
deriving DecidableEq, Repr

/-- A MIDI note event (`models/note.py`, `NoteEvent`).  The constructor in the
source validates `0 ≤ note ≤ 127`, `0 ≤ velocity ≤ 127`, `0 ≤ time_delta`;
those bounds appear as hypotheses where a claim needs them. -/
structure NoteEvent where
  note : Int
  velocity : Int
  time_delta : ℚ
  is_note_on : Bool
deriving DecidableEq, Repr

/-- The constructor-validated bounds of `NoteEvent.__post_init__`
(`models/note.py` lines 63-69). -/
def NoteEvent.valid (e : NoteEvent) : Prop :=
  0 ≤ e.note ∧ e.note ≤ 127 ∧ 0 ≤ e.velocity ∧ e.velocity ≤ 127 ∧ 0 ≤ e.time_delta

instance (e : NoteEvent) : Decidable e.valid := by
  unfold NoteEvent.valid
  infer_instance

/-! ## `core/note_converter.py` -/

/-- Game's playable MIDI range, 3 octaves (`note_converter.py`): `GAME_MIN_MIDI = 48`. -/
def GAME_MIN_MIDI : Int := 48

/-- Game's playable MIDI range, 3 octaves (`note_converter.py`): `GAME_MAX_MIDI = 83`. -/
def GAME_MAX_MIDI : Int := 83

/-- Width of the instrument window (`note_converter.py`): `GAME_RANGE = 83 - 48 + 1 = 36`. -/
def GAME_RANGE : Int := GAME_MAX_MIDI - GAME_MIN_MIDI + 1

/-- The fixed 12-entry semitone table `SEMITONE_TO_NOTE` of
`note_converter.py` lines 20-33, transcribed verbatim.  A Python dict lookup
is modelled as an `Option`; keys 0..11 are present. -/
def SEMITONE_TO_NOTE (s : Int) : Option (NoteName × Accidental) :=
  if s = 0 then some (.DO, .NATURAL)
  else if s = 1 then some (.DO, .SHARP)
  else if s = 2 then some (.RE, .NATURAL)
  else if s = 3 then some (.MI, .FLAT)
  else if s = 4 then some (.MI, .NATURAL)
  else if s = 5 then some (.FA, .NATURAL)
  else if s = 6 then some (.FA, .SHARP)
  else if s = 7 then some (.SOL, .NATURAL)
  else if s = 8 then some (.SOL, .SHARP)
  else if s = 9 then some (.LA, .NATURAL)
  else if s = 10 then some (.TI, .FLAT)
  else if s = 11 then some (.TI, .NATURAL)
  else none

/-- `NoteConverter.min_midi_note` (`note_converter.py`): C of the base octave. -/
def min_midi_note (base_octave : Int) : Int := base_octave * 12

/-- `NoteConverter.max_midi_note` (`note_converter.py`): B of the base+2 octave. -/
def max_midi_note (base_octave : Int) : Int := (base_octave + 3) * 12 - 1

/-- The clamp performed at the top of `NoteConverter.convert`:
`max(self.min_midi_note, min(midi_note, self.max_midi_note))`. -/
def clampNote (base_octave : Int) (midi_note : Int) : Int :=
  max (min_midi_note base_octave) (min midi_note (max_midi_note base_octave))

/-- `NoteConverter.convert` (`note_converter.py` lines 73-106): clamp the pitch
into the 3-octave range, split into octave and semitone, pick the band from
the octave offset relative to the base octave, and read degree/accidental
from `SEMITONE_TO_NOTE`.  The dict lookup is the only fallible step; it is
modelled with `Option`.  The clamped value is at least `48 > 0`, so Python's
floor `//`/`%` agree with Lean's Euclidean `Int` division used here. -/
def convert (base_octave : Int) (midi_note : Int) : Option GameNote :=
  let clamped := clampNote base_octave midi_note
  let octave := clamped / 12
  let semitone := clamped % 12
  let octave_offset := octave - base_octave
  let pitch : Pitch :=
    if octave_offset ≤ 0 then .LOW
    else if octave_offset = 1 then .MID
    else .HIGH
  match SEMITONE_TO_NOTE semitone with
  | some (name, accidental) => some ⟨pitch, name, accidental⟩
  | none => none

/-- `NoteConverter.is_in_range` (`note_converter.py`). -/
def is_in_range (base_octave : Int) (midi_note : Int) : Bool :=
  min_midi_note base_octave ≤ midi_note ∧ midi_note ≤ max_midi_note base_octave

/-! ## `models/mapping_table.py` -/

/-- Natural-note key table `NATURAL_KEYS` (`mapping_table.py`): 3 bands × 7
degrees, all 21 entries present.  Modelled as `Option` to mirror the Python
dict lookup in `KeyMapper._get_natural_key`. -/
def NATURAL_KEYS (p : Pitch) (n : NoteName) : Option String :=
  match p, n with
  | .HIGH, .DO => some "q"
  | .HIGH, .RE => some "w"
  | .HIGH, .MI => some "e"
  | .HIGH, .FA => some "r"
  | .HIGH, .SOL => some "t"
  | .HIGH, .LA => some "y"
  | .HIGH, .TI => some "u"
  | .MID, .DO => some "a"
  | .MID, .RE => some "s"
  | .MID, .MI => some "d"
  | .MID, .FA => some "f"
  | .MID, .SOL => some "g"
  | .MID, .LA => some "h"
  | .MID, .TI => some "j"
  | .LOW, .DO => some "z"
  | .LOW, .RE => some "x"
  | .LOW, .MI => some "c"
  | .LOW, .FA => some "v"
  | .LOW, .SOL => some "b"
  | .LOW, .LA => some "n"
  | .LOW, .TI => some "m"

/-- Sharp-note key table `SHARP_KEYS` (`mapping_table.py`): only degrees
DO (1), FA (4), SOL (5) are present; other lookups miss (`none`). -/
def SHARP_KEYS (p : Pitch) (n : NoteName) : Option String :=
  match p, n with
  | .HIGH, .DO => some "q"
  | .HIGH, .FA => some "r"
  | .HIGH, .SOL => some "t"
  | .MID, .DO => some "a"
  | .MID, .FA => some "f"
  | .MID, .SOL => some "g"
  | .LOW, .DO => some "z"
  | .LOW, .FA => some "v"
  | .LOW, .SOL => some "b"
  | _, _ => none

/-- Flat-note key table `FLAT_KEYS` (`mapping_table.py`): only degrees
MI (3), TI (7) are present; other lookups miss (`none`). -/
def FLAT_KEYS (p : Pitch) (n : NoteName) : Option String :=
  match p, n with
  | .HIGH, .MI => some "e"
  | .HIGH, .TI => some "u"
  | .MID, .MI => some "d"
  | .MID, .TI => some "j"
  | .LOW, .MI => some "c"
  | .LOW, .TI => some "m"
  | _, _ => none

/-- `SHARPS_SUPPORTED` (`mapping_table.py` lines 84-89): the note names whose
sharp the instrument supports. -/
def SHARPS_SUPPORTED (n : NoteName) : Bool :=
  n = .DO || n = .FA || n = .SOL

/-- `FLATS_SUPPORTED` (`mapping_table.py` lines 91-94): the note names whose
flat the instrument supports. -/
def FLATS_SUPPORTED (n : NoteName) : Bool :=
  n = .MI || n = .TI

/-! ## `core/key_mapping.py` -/

/-- `KeyMapper._get_natural_key`: natural lookup, no modifiers. -/
def get_natural_key (p : Pitch) (n : NoteName) : Option KeyPress :=
  (NATURAL_KEYS p n).map fun k => ⟨k, []⟩

/-- `KeyMapper._get_sharp_key`: falls back to the natural key when the sharp
is unsupported, else the sharp key with the `shift` modifier. -/
def get_sharp_key (p : Pitch) (n : NoteName) : Option KeyPress :=
  if SHARPS_SUPPORTED n then (SHARP_KEYS p n).map fun k => ⟨k, ["shift"]⟩
  else get_natural_key p n

/-- `KeyMapper._get_flat_key`: falls back to the natural key when the flat is
unsupported, else the flat key with the `ctrl` modifier. -/
def get_flat_key (p : Pitch) (n : NoteName) : Option KeyPress :=
  if FLATS_SUPPORTED n then (FLAT_KEYS p n).map fun k => ⟨k, ["ctrl"]⟩
  else get_natural_key p n

/-- `KeyMapper.get_key_press` (`key_mapping.py` lines 33-66): dispatch on the
accidental. -/
def get_key_press (g : GameNote) : Option KeyPress :=
  match g.accidental with
  | .SHARP => get_sharp_key g.pitch g.name
  | .FLAT => get_flat_key g.pitch g.name
  | .NATURAL => get_natural_key g.pitch g.name

/-- `KeyMapper.is_accidental_supported` (`key_mapping.py`). -/
def is_accidental_supported (n : NoteName) (a : Accidental) : Bool :=
  match a with
  | .NATURAL => true
  | .SHARP => SHARPS_SUPPORTED n
  | .FLAT => FLATS_SUPPORTED n

/-! ## `core/transposer.py` -/

/-- Python's built-in `round`: round half to even (banker's rounding).  Both
call sites (`round(raw_offset / 12)` and `round(raw_offset)` in
`calculate_offset`) receive values on grids of step at least `1/24`, where
float arithmetic is exact, so the rational model is faithful. -/
def pyRound (q : ℚ) : Int :=
  if q - ⌊q⌋ < 1/2 then ⌊q⌋
  else if 1/2 < q - ⌊q⌋ then ⌊q⌋ + 1
  else if ⌊q⌋ % 2 = 0 then ⌊q⌋ else ⌊q⌋ + 1

/-- The local `raw_offset = game_center - song_center` of
`Transposer.calculate_offset`: both centers are `(lo + hi) / 2`. -/
def rawOffset (song_min song_max : Int) : ℚ :=
  ((GAME_MIN_MIDI : ℚ) + (GAME_MAX_MIDI : ℚ)) / 2 -
    ((song_min : ℚ) + (song_max : ℚ)) / 2

/-- The local `octave_offset = round(raw_offset / 12) * 12` of
`Transposer.calculate_offset`. -/
def octaveShift (song_min song_max : Int) : Int :=
  pyRound (rawOffset song_min song_max / 12) * 12

/-- `Transposer.calculate_offset` (`transposer.py` lines 33-77), with the
default `game_min = 48`, `game_max = 83` used throughout the application:
return 0 when the song already fits; otherwise, when the song's span fits
the instrument window, prefer the octave-aligned centering shift if it fits
and fall back to `round(raw_offset)`; when the span exceeds the window,
center and accept clipping via `round(raw_offset)`. -/
def calculate_offset (note_range : Int × Int) : Int :=
  if GAME_MIN_MIDI ≤ note_range.1 ∧ note_range.2 ≤ GAME_MAX_MIDI then 0
  else if note_range.2 - note_range.1 + 1 ≤ GAME_RANGE then
    if GAME_MIN_MIDI ≤ note_range.1 + octaveShift note_range.1 note_range.2 ∧
       note_range.2 + octaveShift note_range.1 note_range.2 ≤ GAME_MAX_MIDI then
      octaveShift note_range.1 note_range.2
    else pyRound (rawOffset note_range.1 note_range.2)
  else pyRound (rawOffset note_range.1 note_range.2)

/-- The pitches of the note-on events, in order: the list
`[e.note for e in events if e.is_note_on]` built by `find_best_window`. -/
def onsetPitches (events : List NoteEvent) : List Int :=
  (events.filter (·.is_note_on)).map (·.note)

/-- Python's `min` over a nonempty list (result on `[]` is irrelevant). -/
def listMin : List Int → Int
  | [] => 0
  | x :: xs => xs.foldl min x

/-- Python's `max` over a nonempty list (result on `[]` is irrelevant). -/
def listMax : List Int → Int
  | [] => 0
  | x :: xs => xs.foldl max x

/-- Number of pitches inside the 36-semitone window starting at `start`:
`sum(1 for n in notes if start <= n <= end)` with `end = start + 35`. -/
def windowCount (notes : List Int) (start : Int) : Nat :=
  notes.countP fun n => decide (start ≤ n ∧ n ≤ start + GAME_RANGE - 1)

/-- The scanning loop of `find_best_window` (`transposer.py` lines 203-211):
`k` remaining start positions beginning at `start`; `best = (best_start,
best_count)` is replaced only on a strictly greater count. -/
def scanLoop (notes : List Int) : Int → Nat → Int × Nat → Int × Nat
  | _, 0, best => best
  | start, k + 1, (best_start, best_count) =>
    let c := windowCount notes start
    scanLoop notes (start + 1) k
      (if best_count < c then (start, c) else (best_start, best_count))

/-- `Transposer.find_best_window` (`transposer.py` lines 180-215): if the
onset span already fits the instrument window return `(min_note, len(notes))`,
otherwise slide a 36-semitone window from `min_note` to
`max_note - GAME_RANGE + 1` (Python `range(min_note, max_note - GAME_RANGE + 2)`,
modelled by `(max - min - 34).toNat` iterations from `min`) and keep the
earliest start with the strictly maximal count. -/
def find_best_window (events : List NoteEvent) : Int × Nat :=
  let notes := onsetPitches events
  if notes.isEmpty then (GAME_MIN_MIDI, 0)
  else
    let min_note := listMin notes
    let max_note := listMax notes
    if max_note - min_note < GAME_RANGE then (min_note, notes.length)
    else scanLoop notes min_note (max_note - min_note - 34).toNat (min_note, 0)

/-- Loop body of `Transposer.filter_to_window` (`transposer.py` lines
217-251), with the accumulated elapsed time since the last retained onset as
explicit state: skip note-off events, accumulate each onset's delta, keep
onsets inside `[window_start, window_start + GAME_RANGE - 1]` with the
accumulated time as their new delta, resetting the accumulator to 0. -/
def filterToWindowAux (window_start : Int) (acc : ℚ) : List NoteEvent → List NoteEvent
  | [] => []
  | e :: rest =>
    if e.is_note_on then
      let acc' := acc + e.time_delta
      if window_start ≤ e.note ∧ e.note ≤ window_start + GAME_RANGE - 1 then
        ⟨e.note, e.velocity, acc', true⟩ :: filterToWindowAux window_start 0 rest
      else filterToWindowAux window_start acc' rest
    else filterToWindowAux window_start acc rest

/-- `Transposer.filter_to_window`: the loop starting with
`accumulated_time = 0.0`. -/
def filter_to_window (events : List NoteEvent) (window_start : Int) : List NoteEvent :=
  filterToWindowAux window_start 0 events

/-- Events annotated with their absolute (cumulative) time measured from a
baseline `t`: the prefix sums of the `time_delta` stream.  Used to state that
`filter_to_window` preserves the absolute time of every retained onset. -/
def cumEvents : ℚ → List NoteEvent → List (NoteEvent × ℚ)
  | _, [] => []
  | t, e :: rest => (e, t + e.time_delta) :: cumEvents (t + e.time_delta) rest

/-! ## `core/compiled_song.py` -/

/-- Pre-compiled note (`compiled_song.py`, `CompiledNote`). -/
structure CompiledNote where
  key : String
  modifiers : List String
  time_delta : ℚ
  velocity : Int
  is_chord_start : Bool
  chord_size : Nat
deriving DecidableEq, Repr

/-- Chord grouping of `CompiledSong.compile` (`compiled_song.py` lines 76-84):
each outer iteration takes `events[i]` plus all directly-following events
whose own `time_delta ≤ chord_threshold` as one cluster and continues after
them, partitioning the event list into contiguous clusters. -/
def clusters (chord_threshold : ℚ) : List NoteEvent → List (List NoteEvent)
  | [] => []
  | e :: rest =>
    (e :: rest.takeWhile fun x => decide (x.time_delta ≤ chord_threshold)) ::
      clusters chord_threshold (rest.dropWhile fun x => decide (x.time_delta ≤ chord_threshold))
termination_by l => l.length
decreasing_by
  simp only [List.length_cons]
  exact Nat.lt_succ_of_le (List.dropWhile_sublist _).length_le

/-- Compilation of the `idx`-th member of a cluster of size `cluster_size`
(`compiled_song.py` lines 86-107): transpose, convert, resolve the key; only
the first member keeps its `time_delta` and records the cluster size.  `none`
models the `except: pass` branch that silently drops an unmappable note. -/
def compileOne (transpose_offset : Int) (cluster_size : Nat) (idx : Nat)
    (e : NoteEvent) : Option CompiledNote :=
  match convert 4 (e.note + transpose_offset) with
  | none => none
  | some game_note =>
    match get_key_press game_note with
    | none => none
    | some key_press =>
      some
        { key := key_press.key
          modifiers := key_press.modifiers
          time_delta := if idx = 0 then e.time_delta else 0
          velocity := e.velocity
          is_chord_start := idx = 0 ∧ cluster_size > 1
          chord_size := if idx = 0 then cluster_size else 0 }

/-- Compilation of one chord cluster: `for idx, ce in enumerate(chord_events)`
with failing notes dropped (`filterMap`). -/
def compileCluster (transpose_offset : Int) (c : List NoteEvent) : List CompiledNote :=
  c.enum.filterMap fun p => compileOne transpose_offset c.length p.1 p.2

/-- The compiled note list of `CompiledSong.compile`: the clusters compiled in
order. -/
def compileNotes (transpose_offset : Int) (chord_threshold : ℚ)
    (events : List NoteEvent) : List CompiledNote :=
  (clusters chord_threshold events).map (compileCluster transpose_offset) |>.flatten

/-- Cumulative onset times of the compiled notes, as built by
`CompiledSong._calculate_density` (`compiled_song.py` lines 122-128). -/
def cumTimes : ℚ → List CompiledNote → List ℚ
  | _, [] => []
  | t, n :: rest => (t + n.time_delta) :: cumTimes (t + n.time_delta) rest

/-- `CompiledSong._calculate_density` (`compiled_song.py` lines 118-137) with
the default `window = 2.0`: for each cumulative time `t`, the number of
cumulative times within `[t - 1, t + 1]`, divided by the window. -/
def densityMap (notes : List CompiledNote) : List ℚ :=
  let times := cumTimes 0 notes
  times.map fun t => (times.countP fun tt => decide (t - 1 ≤ tt ∧ tt ≤ t + 1) : ℚ) / 2

/-- Pre-compiled song (`compiled_song.py`, `CompiledSong`): notes, total
duration (the sum of the cluster-head deltas accumulated by the outer loop),
and the density map. -/
structure CompiledSong where
  notes : List CompiledNote
  duration : ℚ
  density_map : List ℚ
deriving Repr

/-- `CompiledSong.compile` (`compiled_song.py` lines 69-116) with the
converter and key mapper the application always passes
(`NoteConverter(base_octave=4)` and `KeyMapper()`). -/
def compile (events : List NoteEvent) (transpose_offset : Int)
    (chord_threshold : ℚ) : CompiledSong :=
  let notes := compileNotes transpose_offset chord_threshold events
  { notes := notes
    duration := ((clusters chord_threshold events).map fun c =>
      match c with
      | [] => 0
      | e :: _ => e.time_delta).sum
    density_map := densityMap notes }

/-! ### Full model of the `try` body, parallel arrays included

`CompiledSong.compile` appends, inside its `try` block, not only to
`song.notes` but also to three parallel arrays (`compiled_song.py` lines
96-103): `_time_deltas` (`array('f')`, appends never raise), `_velocities`
and `_chord_sizes` (both `array('B')`, whose `append` raises `OverflowError`
outside `0..255`).  `compileOne`/`compileCluster` above model only the
`notes` output, on which the array appends have no effect (they come after
`song.notes.append`); the definitions below model the whole `try` body with
Python's exception semantics — on an exception the appends already performed
persist, the rest of the body is skipped, and `except Exception: pass`
continues with the next member. -/

/-- The four output containers of `CompiledSong` that `compile` appends to
inside its `try` block. -/
structure CompileArrays where
  notes : List CompiledNote
  time_deltas : List ℚ
  velocities : List Int
  chord_sizes : List Nat
deriving Repr

/-- One iteration of the inner member loop of `compile` (`compiled_song.py`
lines 86-107), in source order: convert, resolve the key, build and append
the `CompiledNote`, append the time delta, append `min(127, velocity)` to
the byte array `_velocities`, append the chord size to the byte array
`_chord_sizes`.  The returned flag records whether the `except` branch was
reached; each byte-array append checks Python's `array('B')` bound
`0..255`. -/
def compileMemberFull (transpose_offset : Int) (cluster_size idx : Nat)
    (e : NoteEvent) (st : CompileArrays) : CompileArrays × Bool :=
  match convert 4 (e.note + transpose_offset) with
  | none => (st, true)
  | some game_note =>
    match get_key_press game_note with
    | none => (st, true)
    | some key_press =>
      let note_time : ℚ := if idx = 0 then e.time_delta else 0
      let cz : Nat := if idx = 0 then cluster_size else 0
      let compiled : CompiledNote :=
        { key := key_press.key
          modifiers := key_press.modifiers
          time_delta := note_time
          velocity := e.velocity
          is_chord_start := idx = 0 ∧ cluster_size > 1
          chord_size := cz }
      let st1 := { st with
        notes := st.notes ++ [compiled]
        time_deltas := st.time_deltas ++ [note_time] }
      if 0 ≤ min 127 e.velocity ∧ min 127 e.velocity ≤ 255 then
        let st2 := { st1 with velocities := st1.velocities ++ [min 127 e.velocity] }
        if cz ≤ 255 then
          ({ st2 with chord_sizes := st2.chord_sizes ++ [cz] }, false)
        else (st2, true)
      else (st1, true)

/-- The member loop `for idx, ce in enumerate(chord_events)` over the
enumerated cluster, threading the arrays and accumulating whether any member
reached the `except` branch. -/
def compileClusterFullGo (transpose_offset : Int) (cluster_size : Nat) :
    List (Nat × NoteEvent) → CompileArrays × Bool → CompileArrays × Bool
  | [], acc => acc
  | p :: rest, (st, raised) =>
    let r := compileMemberFull transpose_offset cluster_size p.1 p.2 st
    compileClusterFullGo transpose_offset cluster_size rest (r.1, raised || r.2)

/-- One chord cluster of the full compile model. -/
def compileClusterFull (transpose_offset : Int) (c : List NoteEvent)
    (acc : CompileArrays × Bool) : CompileArrays × Bool :=
  compileClusterFullGo transpose_offset c.length c.enum acc

/-- The full compile loop: every cluster in order, starting from the empty
arrays; the flag records whether any note's compilation reached the `except`
branch. -/
def compileFull (events : List NoteEvent) (transpose_offset : Int)
    (chord_threshold : ℚ) : CompileArrays × Bool :=
  (clusters chord_threshold events).foldl
    (fun acc c => compileClusterFull transpose_offset c acc) (⟨[], [], [], []⟩, false)

/-! ## `app.py` — playback scheduler state machine

The scheduler's control state is the set of fields of `AutoBardApp` that the
claims mention.  Its control operations (`stop`, `pause`, the dispatch of
`start`, the end-of-session cleanup of `_play_optimized`/`_play_events`) are
straight-line Python; they are modelled as pure state transformers, with the
calls made to the key-command sink recorded in an ordered trace. -/

/-- Calls to the key-command sink (`services/keyboard_service.py`). -/
inductive SinkCall
  | releaseAll
  | press (kp : KeyPress)
  | pressMultiple (kps : List KeyPress)
deriving DecidableEq, Repr

/-- The scheduler-relevant fields of `AutoBardApp` (`app.py` lines 50-62):
the playback state, the two position indices, the two flags, whether a
playback thread is alive, and whether a song is loaded. -/
structure AppState where
  state : PlaybackState
  current_position : Nat
  start_position : Nat
  stop_flag : Bool
  pause_flag : Bool
  thread_alive : Bool
  has_song : Bool
deriving DecidableEq, Repr

/-- `AutoBardApp.stop` (`app.py` lines 267-284), executed top to bottom: set
the stop flag, clear the pause flag, call `release_all()` on the keyboard
service, join the playback thread when one is alive (bounded timeout,
modelled as the thread ending), reset both positions to 0, set state
`STOPPED`.  The returned trace holds the sink calls in order; `releaseAll` is
emitted unconditionally, whether or not a thread is alive. -/
def stopOp (s : AppState) : AppState × List SinkCall :=
  ({ s with
      stop_flag := true
      pause_flag := false
      thread_alive := false
      current_position := 0
      start_position := 0
      state := .STOPPED },
   [SinkCall.releaseAll])

/-- `AutoBardApp.pause` (`app.py` lines 256-265): a no-op unless `PLAYING`;
otherwise set the pause flag, capture `current_position` into
`start_position`, and set state `PAUSED`. -/
def pauseOp (s : AppState) : AppState :=
  if s.state = .PLAYING then
    { s with
        pause_flag := true
        start_position := s.current_position
        state := .PAUSED }
  else s

/-- The three ways `AutoBardApp.start` (`app.py` lines 176-218) can proceed. -/
inductive StartAction
  | noop
  | resume
  | launch
deriving DecidableEq, Repr

/-- Dispatch of `AutoBardApp.start`: return without doing anything when no
song is loaded or already `PLAYING`; when `PAUSED`, clear the pause flag and
transition to `PLAYING` in place (no new thread); otherwise launch a fresh
playback session. -/
def startAction (s : AppState) : StartAction :=
  if ¬s.has_song then .noop
  else if s.state = .PLAYING then .noop
  else if s.state = .PAUSED then .resume
  else .launch

/-- The state change of the `PAUSED` branch of `start` (`app.py` lines
185-190): clear the pause flag, set `PLAYING`; positions are untouched. -/
def resumeOp (s : AppState) : AppState :=
  { s with pause_flag := false, state := .PLAYING }

/-- End-of-session cleanup shared by `_play_events` (`app.py` lines 484-486)
and `_play_optimized` (lines 587-589): the state is set back to `READY` only
when the stop flag is not set (natural completion); after `stop()` the flag
is set, so the state is left untouched. -/
def playbackSessionEnd (s : AppState) : AppState :=
  if s.stop_flag then s else { s with state := .READY }

/-! ### Per-note delay pipeline (`app.py` `_play_events` / `_play_optimized`)

`cfg` carries the configuration values the pipeline reads.  The humanization
jitter (`random.uniform(-humanize_ms, humanize_ms) / 1000`) is passed in as
an explicit `jitter` argument (0 when humanization is off). -/

/-- The configuration values consumed by the delay pipeline, in seconds
(`config/settings.py` values divided by 1000 where the code does so). -/
structure DelayConfig where
  playback_speed : ℚ
  min_note_delay : ℚ
  dynamic_tempo : Bool
  velocity_timing : Bool
deriving Repr

/-- The shared delay computation of both playback loops (`app.py` lines
413-429 and 533-548): `base = delta / speed`, scaled up when dynamic tempo is
on and the local density exceeds 8 notes/sec, scaled up for soft notes when
velocity timing is on, plus the humanization jitter. -/
def pipelineDelay (cfg : DelayConfig) (delta density : ℚ) (velocity : Int)
    (jitter : ℚ) : ℚ :=
  let base := delta / cfg.playback_speed
  let base := if cfg.dynamic_tempo ∧ density > 8 then
    base * (1 + (density - 8) * (3/100)) else base
  let base := if cfg.velocity_timing ∧ velocity < 80 then
    base * (1 + ((80 : ℚ) - velocity) / 200) else base
  base + jitter

/-- The imposed delay of the standard path `_play_events` at loop index `i`
(`app.py` line 431): `actual_delay = max(base_delay, min_delay) if i > 0 else 0`.
The exemption is tied to `i > 0`, not to the stored start position —
`_play_events` never reads `self._start_position` and its loop always starts
at `i = 0`. -/
def playEventsDelay (cfg : DelayConfig) (delta density : ℚ) (velocity : Int)
    (jitter : ℚ) (i : Nat) : ℚ :=
  if i > 0 then max (pipelineDelay cfg delta density velocity jitter) cfg.min_note_delay
  else 0

/-- The imposed delay of the high-performance path `_play_optimized` at loop
index `i` for a session launched from `start_position` (`app.py` line 551):
`actual_delay = max(base_delay, min_delay) if i > self._start_position else 0`. -/
def playOptimizedDelay (cfg : DelayConfig) (delta density : ℚ) (velocity : Int)
    (jitter : ℚ) (start_position i : Nat) : ℚ :=
  if i > start_position then
    max (pipelineDelay cfg delta density velocity jitter) cfg.min_note_delay
  else 0

/-! ## Spec-side model for claim C1

`convertSpec` is NOT translated from the source: it transcribes the claim's
own words (clamp into the absolute range `[48,83]`; band from the clamped
octave relative to base octave 4, `≤ 0 → LOW`, `= 1 → MID`, else `HIGH`;
degree/accidental per the fixed 12-entry table C=deg1/NATURAL,
C#=deg1/SHARP, D=deg2/NATURAL, D#=deg3/FLAT, E=deg3/NATURAL, F=deg4/NATURAL,
F#=deg4/SHARP, G=deg5/NATURAL, G#=deg5/SHARP, A=deg6/NATURAL, A#=deg7/FLAT,
B=deg7/NATURAL), to be compared against `convert`. -/

/-- The claim's semitone table, written as a total function on the 12
residues (degree number, accidental). -/
def specSemitoneTable (s : Int) : Nat × Accidental :=
  if s = 0 then (1, .NATURAL)
  else if s = 1 then (1, .SHARP)
  else if s = 2 then (2, .NATURAL)
  else if s = 3 then (3, .FLAT)
  else if s = 4 then (3, .NATURAL)
  else if s = 5 then (4, .NATURAL)
  else if s = 6 then (4, .SHARP)
  else if s = 7 then (5, .NATURAL)
  else if s = 8 then (5, .SHARP)
  else if s = 9 then (6, .NATURAL)
  else if s = 10 then (7, .FLAT)
  else (7, .NATURAL)

/-- The claim's band rule, stated on the clamped pitch: octave offset
relative to base octave 4, `≤ 0 → LOW`, `= 1 → MID`, otherwise `HIGH`. -/
def specBand (clamped : Int) : Pitch :=
  if clamped / 12 - 4 ≤ 0 then .LOW
  else if clamped / 12 - 4 = 1 then .MID
  else .HIGH

/-! ## Theorems -/

/-- All 128 MIDI pitches, checked one by one: conversion succeeds, the band
follows the claim's band rule on the clamped pitch, degree/accidental follow
the claim's 12-entry table, the clamp lands in `[48,83]`, and conversion is
idempotent on its clamped output. -/
theorem convert_table_aux : ∀ m : Nat, m < 128 →
    (convert 4 (m : Int)).map (fun g => (g.pitch, noteDegree g.name, g.accidental)) =
      some (specBand (clampNote 4 (m : Int)),
        specSemitoneTable (clampNote 4 (m : Int) % 12)) ∧
    48 ≤ clampNote 4 (m : Int) ∧ clampNote 4 (m : Int) ≤ 83 ∧
    convert 4 (clampNote 4 (m : Int)) = convert 4 (m : Int) := by
  decide

/-- C1: for every pitch `p ∈ [0,127]`, `convert` first clamps `p` into the
instrument range `[48,83]`, returns the band prescribed by the clamped octave
relative to base octave 4 (`≤ 0 → LOW`, `= 1 → MID`, else `HIGH`) and the
degree/accidental of the fixed 12-entry semitone table, and is idempotent on
its own clamped output: `convert (clamp p) = convert p`. -/
theorem convert_matches_semitone_table (p : Int) (h0 : 0 ≤ p) (h1 : p ≤ 127) :
    (convert 4 p).map (fun g => (g.pitch, noteDegree g.name, g.accidental)) =
      some (specBand (clampNote 4 p), specSemitoneTable (clampNote 4 p % 12)) ∧
    48 ≤ clampNote 4 p ∧ clampNote 4 p ≤ 83 ∧
    convert 4 (clampNote 4 p) = convert 4 p := by
  lift p to ℕ using h0 with m
  exact convert_table_aux m (by exact_mod_cast Int.lt_add_one_of_le h1)

/-- Witness for C1 at the concrete pitch 60 (middle C). -/
theorem convert_matches_semitone_table_witness :
    (convert 4 60).map (fun g => (g.pitch, noteDegree g.name, g.accidental)) =
      some (specBand (clampNote 4 60), specSemitoneTable (clampNote 4 60 % 12)) ∧
    48 ≤ clampNote 4 60 ∧ clampNote 4 60 ≤ 83 ∧
    convert 4 (clampNote 4 60) = convert 4 60 :=
  convert_matches_semitone_table 60 (by decide) (by decide)

/-- C4: `get_key_press` drops an unsupported accidental (SHARP outside
degrees {1,4,5}, FLAT outside degrees {3,7}) and falls back to the natural
key with no modifier; a supported SHARP resolves to the sharp-table key with
exactly the `shift` modifier, a supported FLAT to the flat-table key with
exactly the `ctrl` modifier. -/
theorem get_key_press_accidental_policy (g : GameNote) :
    (g.accidental = .SHARP →
      ¬(noteDegree g.name = 1 ∨ noteDegree g.name = 4 ∨ noteDegree g.name = 5) →
      (NATURAL_KEYS g.pitch g.name).isSome ∧
      get_key_press g = (NATURAL_KEYS g.pitch g.name).map fun k => ⟨k, []⟩) ∧
    (g.accidental = .FLAT →
      ¬(noteDegree g.name = 3 ∨ noteDegree g.name = 7) →
      (NATURAL_KEYS g.pitch g.name).isSome ∧
      get_key_press g = (NATURAL_KEYS g.pitch g.name).map fun k => ⟨k, []⟩) ∧
    (g.accidental = .SHARP →
      (noteDegree g.name = 1 ∨ noteDegree g.name = 4 ∨ noteDegree g.name = 5) →
      (SHARP_KEYS g.pitch g.name).isSome ∧
      get_key_press g = (SHARP_KEYS g.pitch g.name).map fun k => ⟨k, ["shift"]⟩) ∧
    (g.accidental = .FLAT →
      (noteDegree g.name = 3 ∨ noteDegree g.name = 7) →
      (FLAT_KEYS g.pitch g.name).isSome ∧
      get_key_press g = (FLAT_KEYS g.pitch g.name).map fun k => ⟨k, ["ctrl"]⟩) := by
  obtain ⟨p, n, a⟩ := g
  cases p <;> cases n <;> cases a <;> decide

/-- Witness for C4: one concrete instance of each of the four branches —
unsupported sharp RE# (falls back to natural `s`), unsupported flat LAb
(falls back to natural `n`), supported sharp FA# (`shift`+`r`), supported
flat TIb (`ctrl`+`j`). -/
theorem get_key_press_accidental_policy_witness :
    ((NATURAL_KEYS .MID .RE).isSome ∧
      get_key_press ⟨.MID, .RE, .SHARP⟩ = (NATURAL_KEYS .MID .RE).map fun k => ⟨k, []⟩) ∧
    ((NATURAL_KEYS .LOW .LA).isSome ∧
      get_key_press ⟨.LOW, .LA, .FLAT⟩ = (NATURAL_KEYS .LOW .LA).map fun k => ⟨k, []⟩) ∧
    ((SHARP_KEYS .HIGH .FA).isSome ∧
      get_key_press ⟨.HIGH, .FA, .SHARP⟩ = (SHARP_KEYS .HIGH .FA).map fun k => ⟨k, ["shift"]⟩) ∧
    ((FLAT_KEYS .MID .TI).isSome ∧
      get_key_press ⟨.MID, .TI, .FLAT⟩ = (FLAT_KEYS .MID .TI).map fun k => ⟨k, ["ctrl"]⟩) :=
  ⟨(get_key_press_accidental_policy ⟨.MID, .RE, .SHARP⟩).1 rfl (by decide),
   (get_key_press_accidental_policy ⟨.LOW, .LA, .FLAT⟩).2.1 rfl (by decide),
   (get_key_press_accidental_policy ⟨.HIGH, .FA, .SHARP⟩).2.2.1 rfl (by decide),
   (get_key_press_accidental_policy ⟨.MID, .TI, .FLAT⟩).2.2.2 rfl (by decide)⟩

/-- C7: from every prior scheduler state, `stop()` emits `releaseAll` to the
key-command sink (unconditionally — in particular whether or not a playback
thread is alive), resets both `current_position` and `start_position` to 0,
and sets the state to `STOPPED`.  The sink trace is produced by `stopOp`
itself, before it returns, so the release is synchronous. -/
theorem stop_releases_and_resets (s : AppState) :
    SinkCall.releaseAll ∈ (stopOp s).2 ∧
    (stopOp s).1.current_position = 0 ∧
    (stopOp s).1.start_position = 0 ∧
    (stopOp s).1.state = .STOPPED := by
  refine ⟨?_, rfl, rfl, rfl⟩
  simp [stopOp]

/-- Counterexample to C9 as stated: from the concrete prior state
`(PLAYING, 5, 2, flags clear, thread alive, song loaded)`, after `stop()`
finishes its cleanup the observable state is `STOPPED`, not `READY`, and the
playback loop's end-of-session step changes nothing further (the stop flag is
set, so the `READY` transition is skipped): `STOPPED` does not return to
`READY` once cleanup completes. -/
theorem stopped_not_ready_counterexample :
    (stopOp ⟨.PLAYING, 5, 2, false, false, true, true⟩).1.state = .STOPPED ∧
    playbackSessionEnd (stopOp ⟨.PLAYING, 5, 2, false, false, true, true⟩).1 =
      (stopOp ⟨.PLAYING, 5, 2, false, false, true, true⟩).1 ∧
    (stopOp ⟨.PLAYING, 5, 2, false, false, true, true⟩).1.state ≠ .READY := by
  decide

/-- C9 amended: after `stop()` finishes its cleanup the state is `STOPPED`
and stays `STOPPED` — the end-of-session step of the playback loop leaves it
untouched because the stop flag is set.  The scheduler is nevertheless
reusable: `start()` on the stopped state launches a fresh session (when a
song is loaded), and `READY` is re-entered only on natural completion of a
session, i.e. when the stop flag is not set. -/
theorem stop_state_machine (s : AppState) :
    (stopOp s).1.state = .STOPPED ∧
    playbackSessionEnd (stopOp s).1 = (stopOp s).1 ∧
    (s.has_song = true → startAction (stopOp s).1 = .launch) ∧
    (s.stop_flag = false → (playbackSessionEnd s).state = .READY) := by
  refine ⟨rfl, by simp [playbackSessionEnd, stopOp], fun h => ?_, fun h => ?_⟩
  · simp [startAction, stopOp, h]
  · simp [playbackSessionEnd, h]

/-- Witness for C9's amended statement at the concrete prior state
`(PAUSED, 3, 3, stop flag clear, pause flag set, thread alive, song
loaded)`. -/
theorem stop_state_machine_witness :
    (stopOp ⟨.PAUSED, 3, 3, false, true, true, true⟩).1.state = .STOPPED ∧
    playbackSessionEnd (stopOp ⟨.PAUSED, 3, 3, false, true, true, true⟩).1 =
      (stopOp ⟨.PAUSED, 3, 3, false, true, true, true⟩).1 ∧
    startAction (stopOp ⟨.PAUSED, 3, 3, false, true, true, true⟩).1 = .launch ∧
    (playbackSessionEnd ⟨.PAUSED, 3, 3, false, true, true, true⟩).state = .READY :=
  ⟨(stop_state_machine ⟨.PAUSED, 3, 3, false, true, true, true⟩).1,
   (stop_state_machine ⟨.PAUSED, 3, 3, false, true, true, true⟩).2.1,
   (stop_state_machine ⟨.PAUSED, 3, 3, false, true, true, true⟩).2.2.1 rfl,
   (stop_state_machine ⟨.PAUSED, 3, 3, false, true, true, true⟩).2.2.2 rfl⟩

/-- Counterexample to C8 as stated: in the standard playback path
(`_play_events`), a session at stored index 1 imposes the full clamped delay
on the note at index 1 — with speed 1, a note delta of `1/2` s, minimum note
delay `1/100` s and no humanization, the imposed delay is `1/2`, not the zero
the claim promises for the first resumed note.  (`_play_events` exempts only
index 0 and never reads the stored start position.) -/
theorem resume_zero_delay_counterexample :
    playEventsDelay ⟨1, 1/100, false, false⟩ (1/2) 0 100 0 1 = 1/2 ∧
    playEventsDelay ⟨1, 1/100, false, false⟩ (1/2) 0 100 0 1 ≠ 0 := by
  have h : playEventsDelay ⟨1, 1/100, false, false⟩ (1/2) 0 100 0 1 = 1/2 := by
    simp only [playEventsDelay, pipelineDelay]
    norm_num
  exact ⟨h, by rw [h]; norm_num⟩

/-- C8 amended: `pause()` during `PLAYING` captures `current_position` into
`start_position` and sets `PAUSED`; `start()` from `PAUSED` resumes in place
(clearing the pause flag, positions untouched).  The zero-delay exemption
holds in the high-performance path for the first note of a session launched
from the stored index (`i = start_position`), later notes receiving the full
`max(pipeline, min_note_delay)` clamp.  In the standard path the exemption is
tied to index 0 alone: the imposed delay is zero exactly at `i = 0`, so a
resumed note at a stored index greater than 0 is delayed. -/
theorem resume_delay_policy (cfg : DelayConfig) (delta density : ℚ)
    (velocity : Int) (jitter : ℚ) (s : AppState) (start_position i : Nat) :
    (s.state = .PLAYING →
      (pauseOp s).start_position = s.current_position ∧
      (pauseOp s).state = .PAUSED ∧ (pauseOp s).pause_flag = true) ∧
    (s.state = .PAUSED → s.has_song = true →
      startAction s = .resume ∧
      (resumeOp s).state = .PLAYING ∧
      (resumeOp s).start_position = s.start_position) ∧
    playOptimizedDelay cfg delta density velocity jitter start_position start_position = 0 ∧
    (i > start_position →
      playOptimizedDelay cfg delta density velocity jitter start_position i =
        max (pipelineDelay cfg delta density velocity jitter) cfg.min_note_delay) ∧
    (0 < cfg.min_note_delay →
      (playEventsDelay cfg delta density velocity jitter i = 0 ↔ i = 0)) := by
  refine ⟨fun h => ?_, fun h hs => ?_, ?_, fun h => ?_, fun h => ?_⟩
  · simp [pauseOp, h]
  · refine ⟨?_, rfl, rfl⟩
    simp [startAction, h, hs]
  · simp [playOptimizedDelay]
  · simp [playOptimizedDelay, h]
  · constructor
    · intro h0
      by_contra hi
      have hpos : 0 < i := Nat.pos_of_ne_zero hi
      rw [playEventsDelay, if_pos hpos] at h0
      have := le_max_right (pipelineDelay cfg delta density velocity jitter)
        cfg.min_note_delay
      linarith
    · intro h0
      simp [playEventsDelay, h0]

/-- Witness for C8's amended statement: concrete configuration (speed 1,
minimum delay 1 s, tempo/velocity features off), a playing state pausing at
index 7, a paused state resuming, and the optimized-path delays for a session
launched at stored index 2. -/
theorem resume_delay_policy_witness :
    ((pauseOp ⟨.PLAYING, 7, 0, false, false, true, true⟩).start_position =
        (⟨.PLAYING, 7, 0, false, false, true, true⟩ : AppState).current_position ∧
      (pauseOp ⟨.PLAYING, 7, 0, false, false, true, true⟩).state = .PAUSED ∧
      (pauseOp ⟨.PLAYING, 7, 0, false, false, true, true⟩).pause_flag = true) ∧
    (startAction ⟨.PAUSED, 7, 7, false, true, true, true⟩ = .resume ∧
      (resumeOp ⟨.PAUSED, 7, 7, false, true, true, true⟩).state = .PLAYING ∧
      (resumeOp ⟨.PAUSED, 7, 7, false, true, true, true⟩).start_position =
        (⟨.PAUSED, 7, 7, false, true, true, true⟩ : AppState).start_position) ∧
    playOptimizedDelay ⟨1, 1, false, false⟩ (1/2) 0 100 0 2 2 = 0 ∧
    playOptimizedDelay ⟨1, 1, false, false⟩ (1/2) 0 100 0 2 3 =
      max (pipelineDelay ⟨1, 1, false, false⟩ (1/2) 0 100 0)
        (⟨1, 1, false, false⟩ : DelayConfig).min_note_delay ∧
    (playEventsDelay ⟨1, 1, false, false⟩ (1/2) 0 100 0 3 = 0 ↔ (3 : Nat) = 0) :=
  ⟨(resume_delay_policy ⟨1, 1, false, false⟩ (1/2) 0 100 0
      ⟨.PLAYING, 7, 0, false, false, true, true⟩ 2 3).1 rfl,
   (resume_delay_policy ⟨1, 1, false, false⟩ (1/2) 0 100 0
      ⟨.PAUSED, 7, 7, false, true, true, true⟩ 2 3).2.1 rfl rfl,
   (resume_delay_policy ⟨1, 1, false, false⟩ (1/2) 0 100 0
      ⟨.PAUSED, 7, 7, false, true, true, true⟩ 2 3).2.2.1,
   (resume_delay_policy ⟨1, 1, false, false⟩ (1/2) 0 100 0
      ⟨.PAUSED, 7, 7, false, true, true, true⟩ 2 3).2.2.2.1 (by decide),
   (resume_delay_policy ⟨1, 1, false, false⟩ (1/2) 0 100 0
      ⟨.PAUSED, 7, 7, false, true, true, true⟩ 2 3).2.2.2.2 zero_lt_one⟩

/-- Banker's rounding never rounds down by more than one half. -/
theorem pyRound_ge (q : ℚ) : q - 1/2 ≤ (pyRound q : ℚ) := by
  have h1 := Int.floor_le q
  have h2 := Int.lt_floor_add_one q
  unfold pyRound
  split
  · linarith
  · split
    · push_cast
      linarith
    · split <;> push_cast <;> linarith

/-- Banker's rounding never rounds up by more than one half. -/
theorem pyRound_le (q : ℚ) : (pyRound q : ℚ) ≤ q + 1/2 := by
  have h1 := Int.floor_le q
  have h2 := Int.lt_floor_add_one q
  unfold pyRound
  split
  · linarith
  · rename_i h3
    push_neg at h3
    split
    · push_cast
      linarith
    · rename_i h4
      push_neg at h4
      split <;> push_cast <;> linarith

/-- C2: for every range whose span is at most the 36-semitone instrument
width, `calculate_offset` returns 0 when the range already lies in `[48,83]`;
otherwise it returns an offset that places the shifted range inside
`[48,83]`, and it returns exactly the octave-aligned centering shift — a
multiple of 12 — whenever that shift fits; in particular
`calculate_offset (36, 71) = 12`.  (Hence re-clamping after the offset can
violate the span only when the original span already exceeded 36.) -/
theorem calculate_offset_fits (song_min song_max : Int)
    (hle : song_min ≤ song_max) (hspan : song_max - song_min + 1 ≤ 36) :
    (GAME_MIN_MIDI ≤ song_min ∧ song_max ≤ GAME_MAX_MIDI →
      calculate_offset (song_min, song_max) = 0) ∧
    (¬(GAME_MIN_MIDI ≤ song_min ∧ song_max ≤ GAME_MAX_MIDI) →
      GAME_MIN_MIDI ≤ song_min + calculate_offset (song_min, song_max) ∧
      song_max + calculate_offset (song_min, song_max) ≤ GAME_MAX_MIDI ∧
      (GAME_MIN_MIDI ≤ song_min + octaveShift song_min song_max ∧
          song_max + octaveShift song_min song_max ≤ GAME_MAX_MIDI →
        calculate_offset (song_min, song_max) = octaveShift song_min song_max ∧
        (12 : Int) ∣ calculate_offset (song_min, song_max))) ∧
    calculate_offset (36, 71) = 12 := by
  refine ⟨fun h => ?_, fun h => ?_, ?_⟩
  · simp only [calculate_offset]
    rw [if_pos h]
  · have hrange : song_max - song_min + 1 ≤ GAME_RANGE := by
      simp only [GAME_RANGE, GAME_MIN_MIDI, GAME_MAX_MIDI]
      omega
    by_cases hoct : GAME_MIN_MIDI ≤ song_min + octaveShift song_min song_max ∧
        song_max + octaveShift song_min song_max ≤ GAME_MAX_MIDI
    · have hco : calculate_offset (song_min, song_max) = octaveShift song_min song_max := by
        simp only [calculate_offset]
        rw [if_neg h, if_pos hrange, if_pos hoct]
      refine ⟨by rw [hco]; exact hoct.1, by rw [hco]; exact hoct.2, fun _ => ⟨hco, ?_⟩⟩
      rw [hco, octaveShift]
      exact dvd_mul_left 12 _
    · have hco : calculate_offset (song_min, song_max) =
          pyRound (rawOffset song_min song_max) := by
        simp only [calculate_offset]
        rw [if_neg h, if_pos hrange, if_neg hoct]
      have hg := pyRound_ge (rawOffset song_min song_max)
      have hl := pyRound_le (rawOffset song_min song_max)
      have hspanQ : (song_max : ℚ) - (song_min : ℚ) ≤ 35 := by
        have h35 : (song_max - song_min : Int) ≤ 35 := by omega
        exact_mod_cast h35
      rw [hco]
      have hraw : rawOffset song_min song_max =
          (131 : ℚ)/2 - ((song_min : ℚ) + (song_max : ℚ))/2 := by
        simp only [rawOffset, GAME_MIN_MIDI, GAME_MAX_MIDI]
        norm_num
      refine ⟨?_, ?_, fun hfits => absurd hfits hoct⟩
      · have hq : (47 : ℚ) < (song_min : ℚ) + (pyRound (rawOffset song_min song_max) : ℚ) := by
          linarith [hg, hraw, hspanQ]
        have h47 : (47 : Int) < song_min + pyRound (rawOffset song_min song_max) := by
          exact_mod_cast hq
        simp only [GAME_MIN_MIDI]
        omega
      · have hq : (song_max : ℚ) + (pyRound (rawOffset song_min song_max) : ℚ) < 84 := by
          linarith [hl, hraw, hspanQ]
        have h84 : song_max + pyRound (rawOffset song_min song_max) < (84 : Int) := by
          exact_mod_cast hq
        simp only [GAME_MAX_MIDI]
        omega
  · have hraw : rawOffset 36 71 = 12 := by
      simp [rawOffset, GAME_MIN_MIDI, GAME_MAX_MIDI]
      norm_num
    have hoct : octaveShift 36 71 = 12 := by
      rw [octaveShift, hraw]
      norm_num [pyRound]
    simp only [calculate_offset]
    rw [if_neg (by decide), if_pos (by decide), if_pos (by rw [hoct]; decide)]
    exact hoct

/-- Witness for C2 at the concrete range `(36, 71)` (one octave below, exact
instrument width): the range does not fit as-is, the computed offset places
it inside `[48,83]`, the octave-aligned shift is chosen, and the offset is
12. -/
theorem calculate_offset_fits_witness :
    (GAME_MIN_MIDI ≤ 36 + calculate_offset (36, 71) ∧
      71 + calculate_offset (36, 71) ≤ GAME_MAX_MIDI ∧
      (GAME_MIN_MIDI ≤ 36 + octaveShift 36 71 ∧
          71 + octaveShift 36 71 ≤ GAME_MAX_MIDI →
        calculate_offset (36, 71) = octaveShift 36 71 ∧
        (12 : Int) ∣ calculate_offset (36, 71))) ∧
    calculate_offset (36, 71) = 12 :=
  ⟨(calculate_offset_fits 36 71 (by decide) (by decide)).2.1 (by decide),
   (calculate_offset_fits 36 71 (by decide) (by decide)).2.2⟩

/-- The semitone table has an entry for every residue `0 ≤ s < 12`. -/
theorem semitone_table_total (s : Int) (h0 : 0 ≤ s) (h1 : s < 12) :
    (SEMITONE_TO_NOTE s).isSome := by
  interval_cases s <;> rfl

/-- `NoteConverter.convert` succeeds on every integer pitch: the clamp makes
the semitone residue land in `0..11`, where the table lookup is defined. -/
theorem convert_isSome (base_octave midi_note : Int) :
    (convert base_octave midi_note).isSome := by
  have h0 : 0 ≤ clampNote base_octave midi_note % 12 :=
    Int.emod_nonneg _ (by norm_num)
  have h1 : clampNote base_octave midi_note % 12 < 12 :=
    Int.emod_lt_of_pos _ (by norm_num)
  obtain ⟨⟨nm, acc⟩, hv⟩ :=
    Option.isSome_iff_exists.mp (semitone_table_total _ h0 h1)
  simp [convert, hv]

/-- `KeyMapper.get_key_press` succeeds on every game note: the natural table
is total and the sharp/flat tables are consulted only on supported names. -/
theorem get_key_press_total (g : GameNote) : (get_key_press g).isSome := by
  obtain ⟨p, n, a⟩ := g
  cases p <;> cases n <;> cases a <;> rfl

/-- Compiling a single cluster member never fails: both lookups succeed. -/
theorem compileOne_isSome (off : Int) (cs idx : Nat) (e : NoteEvent) :
    (compileOne off cs idx e).isSome := by
  obtain ⟨g, hg⟩ := Option.isSome_iff_exists.mp (convert_isSome 4 (e.note + off))
  obtain ⟨kp, hk⟩ := Option.isSome_iff_exists.mp (get_key_press_total g)
  simp [compileOne, hg, hk]

/-- The chord size and time delta recorded by `compileOne`: the cluster size
and the event's delta on the first member (`idx = 0`), zero otherwise. -/
theorem compileOne_spec {off : Int} {cs idx : Nat} {e : NoteEvent}
    {n : CompiledNote} (h : compileOne off cs idx e = some n) :
    n.chord_size = (if idx = 0 then cs else 0) ∧
    n.time_delta = (if idx = 0 then e.time_delta else 0) := by
  unfold compileOne at h
  split at h
  · cases h
  · split at h
    · cases h
    · injection h with h2
      subst h2
      exact ⟨rfl, rfl⟩

/-- `compileOne` only distinguishes `idx = 0` from `idx ≠ 0`. -/
theorem compileOne_succ (off : Int) (cs i : Nat) (e : NoteEvent) :
    compileOne off cs (i + 1) e = compileOne off cs 1 e := by
  unfold compileOne
  cases convert 4 (e.note + off) with
  | none => rfl
  | some g =>
    cases get_key_press g with
    | none => rfl
    | some kp => simp

/-- `filterMap` with an everywhere-defined function preserves the length. -/
theorem filterMap_length_total {α β : Type} (f : α → Option β) :
    ∀ l : List α, (∀ a ∈ l, (f a).isSome) → (l.filterMap f).length = l.length := by
  intro l
  induction l with
  | nil => simp
  | cons a t ih =>
    intro h
    obtain ⟨b, hb⟩ := Option.isSome_iff_exists.mp (h a (by simp))
    simp [List.filterMap_cons, hb, ih fun x hx => h x (by simp [hx])]

/-- Compiling the enumerated tail of a cluster ignores the exact indices:
all of them are nonzero. -/
theorem enumFrom_compileOne (off : Int) (cs : Nat) :
    ∀ (l : List NoteEvent) (k : Nat),
      (l.enumFrom (k + 1)).filterMap (fun p => compileOne off cs p.1 p.2) =
        l.filterMap fun e => compileOne off cs 1 e := by
  intro l
  induction l with
  | nil => intro k; rfl
  | cons e t ih =>
    intro k
    simp only [List.enumFrom_cons, List.filterMap_cons]
    rw [show compileOne off cs (k + 1) e = compileOne off cs 1 e from
      compileOne_succ off cs k e]
    cases compileOne off cs 1 e <;> simp [ih (k + 1)]

/-- Structural form of `compileCluster` on a nonempty cluster. -/
theorem compileCluster_cons (off : Int) (e : NoteEvent) (t : List NoteEvent) :
    compileCluster off (e :: t) =
      (compileOne off (t.length + 1) 0 e).toList ++
        t.filterMap fun x => compileOne off (t.length + 1) 1 x := by
  unfold compileCluster
  rw [List.enum_cons, List.filterMap_cons]
  cases h0 : compileOne off (e :: t).length 0 e with
  | none =>
    rw [show (e :: t).length = t.length + 1 from rfl] at h0
    simp [h0, enumFrom_compileOne off (t.length + 1) t 0]
  | some n =>
    rw [show (e :: t).length = t.length + 1 from rfl] at h0
    simp [h0, enumFrom_compileOne off (t.length + 1) t 0]

/-- Every cluster member compiles, so the cluster's compiled length equals
its event count. -/
theorem compileCluster_length (off : Int) (c : List NoteEvent) :
    (compileCluster off c).length = c.length := by
  unfold compileCluster
  rw [filterMap_length_total _ _ fun a _ => compileOne_isSome off c.length a.1 a.2]
  exact List.enum_length

/-- Within one nonempty compiled cluster the chord sizes sum to the cluster's
event count: the head carries the full size, the tail carries zeros. -/
theorem compileCluster_chord_sum (off : Int) (c : List NoteEvent) (hc : c ≠ []) :
    ((compileCluster off c).map (·.chord_size)).sum = c.length := by
  obtain ⟨e, t, rfl⟩ := List.exists_cons_of_ne_nil hc
  rw [compileCluster_cons]
  obtain ⟨n0, h0⟩ :=
    Option.isSome_iff_exists.mp (compileOne_isSome off (t.length + 1) 0 e)
  have hn0 : n0.chord_size = t.length + 1 := by
    have := (compileOne_spec h0).1
    simpa using this
  have hrest :
      ((t.filterMap fun x => compileOne off (t.length + 1) 1 x).map
        (·.chord_size)).sum = 0 := by
    apply List.sum_eq_zero
    intro x hx
    rw [List.mem_map] at hx
    obtain ⟨n, hn, rfl⟩ := hx
    rw [List.mem_filterMap] at hn
    obtain ⟨a, _, hfa⟩ := hn
    have := (compileOne_spec hfa).1
    simpa using this
  rw [h0]
  simp [hn0, hrest]

/-- Within one nonempty compiled cluster, a note with recorded chord size 0
is a non-starting member and carries a zero time delta. -/
theorem compileCluster_zero_delta (off : Int) (c : List NoteEvent) (hc : c ≠ [])
    (n : CompiledNote) (hn : n ∈ compileCluster off c) (hz : n.chord_size = 0) :
    n.time_delta = 0 := by
  unfold compileCluster at hn
  rw [List.mem_filterMap] at hn
  obtain ⟨p, _, hfp⟩ := hn
  obtain ⟨hcs, hdt⟩ := compileOne_spec hfp
  by_cases hp : p.1 = 0
  · rw [hp] at hcs
    simp at hcs
    rw [hz] at hcs
    exact absurd (List.length_eq_zero.mp hcs.symm) hc
  · rw [hdt, if_neg hp]

/-- The clusters partition the event list: concatenating them in order gives
back the events.  Chord-cluster membership is therefore contiguous in index
order. -/
theorem clusters_flatten (th : ℚ) (l : List NoteEvent) :
    (clusters th l).flatten = l := by
  induction l using clusters.induct th with
  | case1 => simp [clusters]
  | case2 e rest ih =>
    simp only [clusters, List.flatten_cons, ih]
    rw [List.cons_append, List.takeWhile_append_dropWhile]

/-- Every cluster is nonempty and every member after a cluster's head got
there because its own delta is at most the threshold. -/
theorem clusters_tail_le (th : ℚ) (l : List NoteEvent) :
    ∀ c ∈ clusters th l, c ≠ [] ∧ ∀ e ∈ c.tail, e.time_delta ≤ th := by
  induction l using clusters.induct th with
  | case1 => simp [clusters]
  | case2 e rest ih =>
    intro c hc
    rw [clusters] at hc
    rcases List.mem_cons.mp hc with h | h
    · subst h
      refine ⟨by simp, ?_⟩
      intro x hx
      simp only [List.tail_cons] at hx
      have hp := List.mem_takeWhile_imp hx
      simp only [decide_eq_true_eq] at hp
      exact hp
    · exact ih c h

/-- Every cluster of a list whose head (if any) has delta above the threshold
starts with an event whose delta is above the threshold. -/
theorem clusters_all_heads (th : ℚ) (l : List NoteEvent)
    (hl : ∀ e ∈ l.head?, th < e.time_delta) :
    ∀ c ∈ clusters th l, ∀ e ∈ c.head?, th < e.time_delta := by
  induction l using clusters.induct th with
  | case1 => simp [clusters]
  | case2 e rest ih =>
    intro c hc
    rw [clusters] at hc
    rcases List.mem_cons.mp hc with h | h
    · subst h
      intro x hx
      simp only [List.head?_cons, Option.mem_def, Option.some.injEq] at hx
      subst hx
      exact hl e rfl
    · refine ih ?_ c h
      intro x hx
      have hd := List.head?_dropWhile_not
        (fun y => decide (y.time_delta ≤ th)) rest
      rw [Option.mem_def] at hx
      rw [hx] at hd
      simpa using hd

/-- Every cluster after the first starts with an event whose delta exceeds
the threshold: two adjacent onsets linked by a delta at most the threshold
always share a cluster. -/
theorem clusters_tail_boundary (th : ℚ) (l : List NoteEvent) :
    ∀ c ∈ (clusters th l).tail, ∀ e ∈ c.head?, th < e.time_delta := by
  cases l with
  | nil => simp [clusters]
  | cons e rest =>
    rw [clusters]
    simp only [List.tail_cons]
    refine clusters_all_heads th _ ?_
    intro x hx
    have hd := List.head?_dropWhile_not
      (fun y => decide (y.time_delta ≤ th)) rest
    rw [Option.mem_def] at hx
    rw [hx] at hd
    simpa using hd

/-- The cumulative-time list tracks the note list's length. -/
theorem cumTimes_length (notes : List CompiledNote) :
    ∀ t : ℚ, (cumTimes t notes).length = notes.length := by
  induction notes with
  | nil => intro t; rfl
  | cons n rest ih => intro t; simp [cumTimes, ih]

/-- The density map has exactly one entry per compiled note. -/
theorem densityMap_length (notes : List CompiledNote) :
    (densityMap notes).length = notes.length := by
  simp [densityMap, cumTimes_length]

/-- The compiled note list has exactly one entry per input event. -/
theorem compileNotes_length (off : Int) (th : ℚ) (events : List NoteEvent) :
    (compileNotes off th events).length = events.length := by
  unfold compileNotes
  rw [List.length_flatten]
  conv_rhs => rw [← clusters_flatten th events, List.length_flatten]
  rw [List.map_map]
  congr 1
  apply List.map_congr_left
  intro c _
  exact compileCluster_length off c

/-- Summing the recorded chord sizes over a concatenation of compiled
nonempty clusters gives the total compiled note count. -/
theorem flatten_chord_sum (off : Int) :
    ∀ L : List (List NoteEvent), (∀ c ∈ L, c ≠ []) →
      (((L.map (compileCluster off)).flatten).map (·.chord_size)).sum =
        ((L.map (compileCluster off)).flatten).length := by
  intro L
  induction L with
  | nil => simp
  | cons c t ih =>
    intro h
    simp only [List.map_cons, List.flatten_cons, List.map_append,
      List.sum_append, List.length_append]
    rw [compileCluster_chord_sum off c (h c (by simp)),
      compileCluster_length off c, ih fun x hx => h x (by simp [hx])]

/-- C3: for every event list, transpose offset and chord threshold, the chord
clusters built by `compile` partition the events contiguously and maximally
(every non-head cluster member has delta at most the threshold; every cluster
after the first starts above the threshold, so adjacent onsets linked by
deltas at most the threshold share a cluster); in the compiled result the
recorded chord sizes sum to the compiled note count (non-starting members
record 0, so the sum is over cluster starters), non-starting members carry a
zero time delta, and the density map has exactly one entry per note. -/
theorem compile_chord_clustering (events : List NoteEvent) (off : Int) (th : ℚ) :
    (clusters th events).flatten = events ∧
    (∀ c ∈ clusters th events, c ≠ [] ∧ ∀ e ∈ c.tail, e.time_delta ≤ th) ∧
    (∀ c ∈ (clusters th events).tail, ∀ e ∈ c.head?, th < e.time_delta) ∧
    ((compile events off th).notes.map (·.chord_size)).sum =
      (compile events off th).notes.length ∧
    (∀ n ∈ (compile events off th).notes, n.chord_size = 0 → n.time_delta = 0) ∧
    (compile events off th).density_map.length =
      (compile events off th).notes.length := by
  refine ⟨clusters_flatten th events, clusters_tail_le th events,
    clusters_tail_boundary th events, ?_, ?_, ?_⟩
  · show ((compileNotes off th events).map (·.chord_size)).sum =
      (compileNotes off th events).length
    unfold compileNotes
    exact flatten_chord_sum off (clusters th events)
      fun c hc => (clusters_tail_le th events c hc).1
  · intro n hn hz
    show n.time_delta = 0
    have hn2 : n ∈ compileNotes off th events := hn
    unfold compileNotes at hn2
    rw [List.mem_flatten] at hn2
    obtain ⟨nl, hnl, hmem⟩ := hn2
    rw [List.mem_map] at hnl
    obtain ⟨c, hcmem, rfl⟩ := hnl
    exact compileCluster_zero_delta off c ((clusters_tail_le th events c hcmem).1)
      n hmem hz
  · exact densityMap_length _

/-- One member of the full compile model, for a nonnegative velocity: the
note is always appended (both lookups succeed and `notes.append` precedes
the byte-array appends), the appended note is the one `compileOne` computes,
and the `except` branch is reached exactly when this is the cluster head and
the cluster has more than 255 members (the `_chord_sizes.append` overflow;
`min(127,·)` keeps the velocity append in `0..255`). -/
theorem compileMemberFull_spec (off : Int) (cs idx : Nat) (e : NoteEvent)
    (st : CompileArrays) (hv : 0 ≤ e.velocity) :
    (compileMemberFull off cs idx e st).1.notes =
      st.notes ++ (compileOne off cs idx e).toList ∧
    (compileMemberFull off cs idx e st).2 = decide (idx = 0 ∧ 255 < cs) := by
  obtain ⟨g, hg⟩ := Option.isSome_iff_exists.mp (convert_isSome 4 (e.note + off))
  obtain ⟨kp, hk⟩ := Option.isSome_iff_exists.mp (get_key_press_total g)
  have hvel : 0 ≤ min (127 : Int) e.velocity ∧ min (127 : Int) e.velocity ≤ 255 :=
    ⟨le_min (by norm_num) hv, le_trans (min_le_left _ _) (by norm_num)⟩
  by_cases hidx : idx = 0
  · subst hidx
    by_cases hcs : cs ≤ 255
    · have h1 : ¬(255 < cs) := by omega
      simp [compileMemberFull, compileOne, hg, hk, hvel, hcs, h1]
    · have h1 : 255 < cs := by omega
      simp [compileMemberFull, compileOne, hg, hk, hvel, hcs, h1]
  · simp [compileMemberFull, compileOne, hg, hk, hvel, hidx]

/-- Processing the enumerated tail of a cluster (indices `k+1, k+2, …`)
appends exactly the `compileOne` results and never raises: the chord-size
appended for a non-head member is 0. -/
theorem compileClusterFullGo_tail (off : Int) (cs : Nat) :
    ∀ (l : List NoteEvent) (k : Nat) (st : CompileArrays) (b : Bool),
      (∀ e ∈ l, 0 ≤ e.velocity) →
      (compileClusterFullGo off cs (l.enumFrom (k + 1)) (st, b)).1.notes =
        st.notes ++ l.filterMap (fun e => compileOne off cs 1 e) ∧
      (compileClusterFullGo off cs (l.enumFrom (k + 1)) (st, b)).2 = b := by
  intro l
  induction l with
  | nil => intro k st b _; exact ⟨(List.append_nil _).symm, rfl⟩
  | cons e t ih =>
    intro k st b hv
    rw [List.enumFrom_cons, compileClusterFullGo]
    obtain ⟨hn, hf⟩ := compileMemberFull_spec off cs (k + 1) e st (hv e (by simp))
    have hf0 : (compileMemberFull off cs (k + 1) e st).2 = false := by
      rw [hf]
      simp
    rw [hf0]
    simp only [Bool.or_false]
    obtain ⟨ihn, ihf⟩ := ih (k + 1) (compileMemberFull off cs (k + 1) e st).1 b
      fun x hx => hv x (by simp [hx])
    refine ⟨?_, ihf⟩
    rw [ihn, hn, compileOne_succ off cs k e, List.filterMap_cons]
    obtain ⟨n1, hn1⟩ := Option.isSome_iff_exists.mp (compileOne_isSome off cs 1 e)
    rw [hn1]
    simp

/-- One full cluster: it appends exactly `compileCluster`'s notes, and the
`except` branch is reached exactly when the cluster is nonempty with more
than 255 members. -/
theorem compileClusterFull_spec (off : Int) (c : List NoteEvent)
    (st : CompileArrays) (b : Bool) (hv : ∀ e ∈ c, 0 ≤ e.velocity) :
    (compileClusterFull off c (st, b)).1.notes = st.notes ++ compileCluster off c ∧
    (compileClusterFull off c (st, b)).2 =
      (b || decide (c ≠ [] ∧ 255 < c.length)) := by
  cases c with
  | nil =>
    refine ⟨?_, by simp [compileClusterFull, compileClusterFullGo]⟩
    show st.notes = st.notes ++ compileCluster off []
    simp [compileCluster]
  | cons e t =>
    unfold compileClusterFull
    rw [List.enum_cons, compileClusterFullGo]
    obtain ⟨hn, hf⟩ := compileMemberFull_spec off (e :: t).length 0 e st (hv e (by simp))
    obtain ⟨gn, gf⟩ := compileClusterFullGo_tail off (e :: t).length t 0
      (compileMemberFull off (e :: t).length 0 e st).1
      (b || (compileMemberFull off (e :: t).length 0 e st).2)
      fun x hx => hv x (by simp [hx])
    refine ⟨?_, ?_⟩
    · rw [gn, hn, compileCluster_cons]
      rw [show (e :: t).length = t.length + 1 from rfl]
      simp [List.append_assoc]
    · rw [gf, hf]
      simp

/-- The compile fold over a list of nonoverlapping clusters: the notes are
the concatenation of the per-cluster compilations, and the `except` branch is
reached exactly when some cluster is nonempty with more than 255 members. -/
theorem compileFull_foldl (off : Int) :
    ∀ (L : List (List NoteEvent)) (st : CompileArrays) (b : Bool),
      (∀ c ∈ L, ∀ e ∈ c, 0 ≤ e.velocity) →
      ((L.foldl (fun acc c => compileClusterFull off c acc) (st, b)).1.notes =
        st.notes ++ (L.map (compileCluster off)).flatten) ∧
      (L.foldl (fun acc c => compileClusterFull off c acc) (st, b)).2 =
        (b || L.any fun c => decide (c ≠ [] ∧ 255 < c.length)) := by
  intro L
  induction L with
  | nil => intro st b _; exact ⟨by simp, by simp⟩
  | cons c t ih =>
    intro st b hv
    simp only [List.foldl_cons]
    obtain ⟨hcn, hcf⟩ := compileClusterFull_spec off c st b (hv c (by simp))
    obtain ⟨ihn, ihf⟩ := ih (compileClusterFull off c (st, b)).1
      (compileClusterFull off c (st, b)).2
      fun x hx => hv x (by simp [hx])
    rw [Prod.mk.eta] at ihn ihf
    constructor
    · rw [ihn, hcn]
      simp [List.append_assoc]
    · rw [ihf, hcf]
      simp [Bool.or_assoc]

/-- Relation between the full compile model and the notes-only model: on
events with nonnegative velocities (the constructor guarantees this) the
full model emits exactly `compile`'s notes, and no member ever reaches the
`except` branch precisely when every chord cluster has at most 255
members. -/
theorem compileFull_spec (events : List NoteEvent) (off : Int) (th : ℚ)
    (hv : ∀ e ∈ events, 0 ≤ e.velocity) :
    (compileFull events off th).1.notes = (compile events off th).notes ∧
    ((compileFull events off th).2 = false ↔
      ∀ c ∈ clusters th events, c.length ≤ 255) := by
  have hv2 : ∀ c ∈ clusters th events, ∀ e ∈ c, 0 ≤ e.velocity := by
    intro c hc e he
    refine hv e ?_
    rw [← clusters_flatten th events]
    exact List.mem_flatten_of_mem hc he
  obtain ⟨hn, hf⟩ := compileFull_foldl off (clusters th events) ⟨[], [], [], []⟩ false hv2
  constructor
  · show (compileFull events off th).1.notes = compileNotes off th events
    unfold compileFull compileNotes
    rw [hn]
    simp
  · show (compileFull events off th).2 = false ↔ _
    unfold compileFull
    rw [hf]
    simp only [Bool.false_or, List.any_eq_false, decide_eq_true_eq, not_and, not_lt]
    constructor
    · intro h c hc
      exact h c hc ((clusters_tail_le th events c hc).1)
    · intro h c hc _
      exact h c hc

/-- A list whose tail deltas all sit at or below the threshold forms a single
chord cluster. -/
theorem clusters_of_all_le (th : ℚ) (e : NoteEvent) (rest : List NoteEvent)
    (h : ∀ x ∈ rest, x.time_delta ≤ th) : clusters th (e :: rest) = [e :: rest] := by
  rw [clusters]
  rw [List.takeWhile_eq_self_iff.mpr fun x hx => decide_eq_true (h x hx)]
  rw [List.dropWhile_eq_nil_iff.mpr fun x hx => decide_eq_true (h x hx)]
  simp [clusters]

/-- Counterexample to C10 as stated: the `except` branch of `compile` is
reachable from constructor-valid input.  256 simultaneous valid onsets form
one chord cluster of size 256, and the cluster head's
`_chord_sizes.append(256)` overflows the unsigned-byte array
(`compiled_song.py` line 103), reaching the `except Exception: pass`
branch. -/
theorem compile_exception_reachable_counterexample :
    (∀ e ∈ List.replicate 256 (⟨60, 100, 0, true⟩ : NoteEvent), e.valid) ∧
    (compileFull (List.replicate 256 ⟨60, 100, 0, true⟩) 0 (1/20)).2 = true := by
  have hval : ∀ e ∈ List.replicate 256 (⟨60, 100, 0, true⟩ : NoteEvent), e.valid := by
    intro e he
    rw [List.eq_of_mem_replicate he]
    norm_num [NoteEvent.valid]
  refine ⟨hval, ?_⟩
  have hcl : clusters (1/20) (List.replicate 256 (⟨60, 100, 0, true⟩ : NoteEvent)) =
      [List.replicate 256 ⟨60, 100, 0, true⟩] := by
    rw [show (256 : Nat) = 255 + 1 from rfl, List.replicate_succ]
    refine clusters_of_all_le (1/20) _ _ ?_
    intro x hx
    rw [List.eq_of_mem_replicate hx]
    norm_num
  have hv : ∀ e ∈ List.replicate 256 (⟨60, 100, 0, true⟩ : NoteEvent), 0 ≤ e.velocity := by
    intro e he
    rw [List.eq_of_mem_replicate he]
    norm_num
  have hs := (compileFull_spec (List.replicate 256 ⟨60, 100, 0, true⟩) 0 (1/20) hv).2
  by_contra hne
  have hfalse : (compileFull (List.replicate 256 (⟨60, 100, 0, true⟩ : NoteEvent))
      0 (1/20)).2 = false := Bool.eq_false_iff.mpr hne
  have hb := hs.mp hfalse (List.replicate 256 ⟨60, 100, 0, true⟩)
    (by rw [hcl]; exact List.mem_singleton.mpr rfl)
  rw [List.length_replicate] at hb
  omega

/-- C10 amended: for every constructor-valid event list and every integer
transpose offset, the conversion and key-table lookups never fail (so no
note is ever dropped as unmappable) and `compile` emits exactly one compiled
note per input event — the note is appended before the byte-array appends —
but the `except` branch is not unreachable: it is avoided precisely when
every chord cluster has at most 255 members, the unsigned-byte bound of the
`_chord_sizes` array append. -/
theorem compile_exception_policy (events : List NoteEvent) (off : Int) (th : ℚ)
    (hv : ∀ e ∈ events, e.valid) :
    (∀ n : Int, (convert 4 n).isSome) ∧
    (∀ g : GameNote, (get_key_press g).isSome) ∧
    (compileFull events off th).1.notes = (compile events off th).notes ∧
    (compile events off th).notes.length = events.length ∧
    ((compileFull events off th).2 = false ↔
      ∀ c ∈ clusters th events, c.length ≤ 255) := by
  have hv2 : ∀ e ∈ events, 0 ≤ e.velocity := fun e he => (hv e he).2.2.1
  obtain ⟨h1, h2⟩ := compileFull_spec events off th hv2
  exact ⟨fun n => convert_isSome 4 n, get_key_press_total, h1,
    compileNotes_length off th events, h2⟩

/-- Witness for C10's amended statement on a concrete two-event song (a
C4/E4 near-chord) with transpose offset 12 and the default threshold `0.05`:
the full model emits the same notes as the notes-only model, one per input
event. -/
theorem compile_exception_policy_witness :
    (compileFull [⟨60, 100, 0, true⟩, ⟨64, 100, 1/100, true⟩] 12 (1/20)).1.notes =
      (compile [⟨60, 100, 0, true⟩, ⟨64, 100, 1/100, true⟩] 12 (1/20)).notes ∧
    (compile [⟨60, 100, 0, true⟩, ⟨64, 100, 1/100, true⟩] 12 (1/20)).notes.length =
      ([⟨60, 100, 0, true⟩, ⟨64, 100, 1/100, true⟩] : List NoteEvent).length :=
  ⟨(compile_exception_policy [⟨60, 100, 0, true⟩, ⟨64, 100, 1/100, true⟩] 12 (1/20)
      (by simp [NoteEvent.valid])).2.2.1,
   (compile_exception_policy [⟨60, 100, 0, true⟩, ⟨64, 100, 1/100, true⟩] 12 (1/20)
      (by simp [NoteEvent.valid])).2.2.2.1⟩

/-- The filtering loop of `filter_to_window`, related to a filter over the
time-annotated input: with `a` already accumulated and baseline `t`, the
retained onsets carry exactly the absolute times they had in the input
stream based at `t + a`. -/
theorem filterToWindowAux_cum (ws : Int) :
    ∀ (l : List NoteEvent) (a t : ℚ), (∀ e ∈ l, e.is_note_on = true) →
      (cumEvents t (filterToWindowAux ws a l)).map
          (fun p => (p.1.note, p.1.velocity, p.2)) =
        ((cumEvents (t + a) l).filter fun p =>
            decide (ws ≤ p.1.note ∧ p.1.note ≤ ws + GAME_RANGE - 1)).map
          (fun p => (p.1.note, p.1.velocity, p.2)) := by
  intro l
  induction l with
  | nil => intro a t _; rfl
  | cons e rest ih =>
    intro a t h
    have he : e.is_note_on = true := h e (by simp)
    have hrest : ∀ x ∈ rest, x.is_note_on = true := fun x hx => h x (by simp [hx])
    rw [filterToWindowAux, he]
    simp only [if_true]
    by_cases hw : ws ≤ e.note ∧ e.note ≤ ws + GAME_RANGE - 1
    · rw [if_pos hw]
      simp only [cumEvents, List.filter_cons, List.map_cons]
      rw [if_pos (by simpa using hw)]
      simp only [List.map_cons]
      have ht : t + (a + e.time_delta) = t + a + e.time_delta := by ring
      rw [ht, ih 0 (t + a + e.time_delta) hrest, add_zero]
    · rw [if_neg hw]
      simp only [cumEvents, List.filter_cons]
      rw [if_neg (by simpa using hw)]
      rw [ih (a + e.time_delta) t hrest]
      have ht : t + (a + e.time_delta) = t + a + e.time_delta := by ring
      rw [ht]

/-- Projecting the time annotation away recovers the plain event stream. -/
theorem cumEvents_proj (l : List NoteEvent) :
    ∀ t : ℚ, (cumEvents t l).map (fun p => (p.1.note, p.1.velocity)) =
      l.map fun e => (e.note, e.velocity) := by
  induction l with
  | nil => intro t; rfl
  | cons e rest ih => intro t; simp [cumEvents, ih]

/-- Filtering on a pitch predicate commutes with the time annotation, up to
the projection that drops the times. -/
theorem cumEvents_filter_proj (ws : Int) (l : List NoteEvent) :
    ∀ t : ℚ,
      ((cumEvents t l).filter fun p =>
          decide (ws ≤ p.1.note ∧ p.1.note ≤ ws + GAME_RANGE - 1)).map
        (fun p => (p.1.note, p.1.velocity)) =
      (l.filter fun e => decide (ws ≤ e.note ∧ e.note ≤ ws + GAME_RANGE - 1)).map
        (fun e => (e.note, e.velocity)) := by
  induction l with
  | nil => intro t; rfl
  | cons e rest ih =>
    intro t
    simp only [cumEvents, List.filter_cons]
    by_cases hw : ws ≤ e.note ∧ e.note ≤ ws + GAME_RANGE - 1
    · rw [if_pos (by simpa using hw), if_pos (by simpa using hw)]
      simp only [List.map_cons]
      rw [ih (t + e.time_delta)]
    · rw [if_neg (by simpa using hw), if_neg (by simpa using hw)]
      exact ih _

/-- C6: on a stream of onset events, `filter_to_window` retains exactly the
onsets whose pitch lies in `[window_start, window_start + 35]`, in their
original order, and each retained onset's cumulative `time_delta` in the
output equals its cumulative time in the input — the time of skipped onsets
is folded into the next kept onset's delta, preserving absolute timing. -/
theorem filter_to_window_preserves_timing (events : List NoteEvent)
    (ws : Int) (h : ∀ e ∈ events, e.is_note_on = true) :
    (cumEvents 0 (filter_to_window events ws)).map
        (fun p => (p.1.note, p.1.velocity, p.2)) =
      ((cumEvents 0 events).filter fun p =>
          decide (ws ≤ p.1.note ∧ p.1.note ≤ ws + GAME_RANGE - 1)).map
        (fun p => (p.1.note, p.1.velocity, p.2)) ∧
    (filter_to_window events ws).map (fun e => (e.note, e.velocity)) =
      (events.filter fun e =>
          decide (ws ≤ e.note ∧ e.note ≤ ws + GAME_RANGE - 1)).map
        (fun e => (e.note, e.velocity)) := by
  have h1 := filterToWindowAux_cum ws events 0 0 h
  rw [add_zero] at h1
  refine ⟨h1, ?_⟩
  have h2 := congrArg (List.map fun x : Int × Int × ℚ => (x.1, x.2.1)) h1
  rw [List.map_map, List.map_map] at h2
  have h3 : (cumEvents 0 (filter_to_window events ws)).map
      (fun p => (p.1.note, p.1.velocity)) =
      ((cumEvents 0 events).filter fun p =>
          decide (ws ≤ p.1.note ∧ p.1.note ≤ ws + GAME_RANGE - 1)).map
        (fun p => (p.1.note, p.1.velocity)) := h2
  rw [cumEvents_proj (filter_to_window events ws) 0,
    cumEvents_filter_proj ws events 0] at h3
  exact h3

/-- Witness for C6 on a concrete three-onset stream with window start 48:
the middle onset (pitch 10) is dropped, and the kept onsets (pitches 50 and
60) keep their notes, velocities and absolute times. -/
theorem filter_to_window_preserves_timing_witness :
    (cumEvents 0 (filter_to_window
        [⟨50, 100, 1, true⟩, ⟨10, 90, 1, true⟩, ⟨60, 80, 1, true⟩] 48)).map
        (fun p => (p.1.note, p.1.velocity, p.2)) =
      ((cumEvents 0 [⟨50, 100, 1, true⟩, ⟨10, 90, 1, true⟩, ⟨60, 80, 1, true⟩]).filter
          fun p => decide (48 ≤ p.1.note ∧ p.1.note ≤ 48 + GAME_RANGE - 1)).map
        (fun p => (p.1.note, p.1.velocity, p.2)) ∧
    (filter_to_window [⟨50, 100, 1, true⟩, ⟨10, 90, 1, true⟩, ⟨60, 80, 1, true⟩] 48).map
        (fun e => (e.note, e.velocity)) =
      (([⟨50, 100, 1, true⟩, ⟨10, 90, 1, true⟩, ⟨60, 80, 1, true⟩] : List NoteEvent).filter
          fun e => decide (48 ≤ e.note ∧ e.note ≤ 48 + GAME_RANGE - 1)).map
        (fun e => (e.note, e.velocity)) :=
  filter_to_window_preserves_timing
    [⟨50, 100, 1, true⟩, ⟨10, 90, 1, true⟩, ⟨60, 80, 1, true⟩] 48 (by simp)

/-- Folding `min` over a list stays below the seed and every element. -/
theorem foldl_min_spec (xs : List Int) :
    ∀ a : Int, xs.foldl min a ≤ a ∧ ∀ x ∈ xs, xs.foldl min a ≤ x := by
  induction xs with
  | nil => intro a; exact ⟨le_rfl, by simp⟩
  | cons y t ih =>
    intro a
    simp only [List.foldl_cons]
    refine ⟨le_trans (ih (min a y)).1 (min_le_left a y), ?_⟩
    intro x hx
    rcases List.mem_cons.mp hx with rfl | hx
    · exact le_trans (ih (min a x)).1 (min_le_right a x)
    · exact (ih (min a y)).2 x hx

/-- Folding `min` over a list lands on the seed or on an element. -/
theorem foldl_min_mem (xs : List Int) :
    ∀ a : Int, xs.foldl min a = a ∨ xs.foldl min a ∈ xs := by
  induction xs with
  | nil => intro a; exact Or.inl rfl
  | cons y t ih =>
    intro a
    simp only [List.foldl_cons]
    rcases ih (min a y) with h | h
    · rcases min_choice a y with h2 | h2
      · exact Or.inl (h.trans h2)
      · exact Or.inr (by rw [h, h2]; simp)
    · exact Or.inr (List.mem_cons_of_mem y h)

/-- Python's `min` bounds every list element from below. -/
theorem listMin_le (l : List Int) (x : Int) (hx : x ∈ l) : listMin l ≤ x := by
  cases l with
  | nil => cases hx
  | cons y t =>
    rcases List.mem_cons.mp hx with rfl | hx2
    · exact (foldl_min_spec t x).1
    · exact (foldl_min_spec t y).2 x hx2

/-- Python's `min` of a nonempty list is one of its elements. -/
theorem listMin_mem (l : List Int) (h : l ≠ []) : listMin l ∈ l := by
  cases l with
  | nil => exact absurd rfl h
  | cons y t =>
    rcases foldl_min_mem t y with h2 | h2
    · simp only [listMin, h2]
      simp
    · exact List.mem_cons_of_mem y h2

/-- Folding `max` over a list stays above the seed and every element. -/
theorem foldl_max_spec (xs : List Int) :
    ∀ a : Int, a ≤ xs.foldl max a ∧ ∀ x ∈ xs, x ≤ xs.foldl max a := by
  induction xs with
  | nil => intro a; exact ⟨le_rfl, by simp⟩
  | cons y t ih =>
    intro a
    simp only [List.foldl_cons]
    refine ⟨le_trans (le_max_left a y) (ih (max a y)).1, ?_⟩
    intro x hx
    rcases List.mem_cons.mp hx with rfl | hx
    · exact le_trans (le_max_right a x) (ih (max a x)).1
    · exact (ih (max a y)).2 x hx

/-- Python's `max` bounds every list element from above. -/
theorem listMax_ge (l : List Int) (x : Int) (hx : x ∈ l) : x ≤ listMax l := by
  cases l with
  | nil => cases hx
  | cons y t =>
    rcases List.mem_cons.mp hx with rfl | hx2
    · exact (foldl_max_spec t x).1
    · exact (foldl_max_spec t y).2 x hx2

/-- Window counts are monotone under window inclusion on the note list. -/
theorem windowCount_mono (notes : List Int) (s t : Int)
    (h : ∀ n ∈ notes, s ≤ n → n ≤ s + GAME_RANGE - 1 →
      t ≤ n ∧ n ≤ t + GAME_RANGE - 1) :
    windowCount notes s ≤ windowCount notes t := by
  unfold windowCount
  apply List.countP_mono_left
  intro x hx hp
  have hp2 := of_decide_eq_true hp
  exact decide_eq_true (h x hx hp2.1 hp2.2)

/-- A window containing a known element has a positive count. -/
theorem windowCount_pos (notes : List Int) (s x : Int) (hx : x ∈ notes)
    (h1 : s ≤ x) (h2 : x ≤ s + GAME_RANGE - 1) : 0 < windowCount notes s := by
  unfold windowCount
  rw [List.countP_pos_iff]
  exact ⟨x, hx, decide_eq_true ⟨h1, h2⟩⟩

/-- Invariants of the scanning loop of `find_best_window`, by induction over
the remaining start positions: the best count never decreases; the result is
either the initial best untouched or a strictly better scanned position whose
recorded count is its window count; every scanned window count is dominated;
and every scanned start strictly left of the returned one counts strictly
fewer notes (ties keep the earliest maximum). -/
theorem scanLoop_spec (notes : List Int) :
    ∀ (k : Nat) (start bs : Int) (bc : Nat), bs ≤ start →
      bc ≤ (scanLoop notes start k (bs, bc)).2 ∧
      (scanLoop notes start k (bs, bc) = (bs, bc) ∨
        (start ≤ (scanLoop notes start k (bs, bc)).1 ∧
          (scanLoop notes start k (bs, bc)).1 < start + (k : Int) ∧
          windowCount notes (scanLoop notes start k (bs, bc)).1 =
            (scanLoop notes start k (bs, bc)).2 ∧
          bc < (scanLoop notes start k (bs, bc)).2)) ∧
      (∀ j : Nat, j < k →
        windowCount notes (start + (j : Int)) ≤ (scanLoop notes start k (bs, bc)).2) ∧
      (∀ j : Nat, j < k → start + (j : Int) < (scanLoop notes start k (bs, bc)).1 →
        windowCount notes (start + (j : Int)) < (scanLoop notes start k (bs, bc)).2) := by
  intro k
  induction k with
  | zero =>
    intro start bs bc hb
    exact ⟨le_rfl, Or.inl rfl, fun j hj => absurd hj (by omega),
      fun j hj _ => absurd hj (by omega)⟩
  | succ k ih =>
    intro start bs bc hb
    simp only [scanLoop]
    by_cases hlt : bc < windowCount notes start
    · rw [if_pos hlt]
      obtain ⟨H1, H2, H3, H4⟩ := ih (start + 1) start (windowCount notes start) (by omega)
      refine ⟨le_trans (le_of_lt hlt) H1, ?_, ?_, ?_⟩
      · rcases H2 with h | h
        · refine Or.inr ⟨by rw [h], by rw [h]; push_cast; omega, by rw [h], by rw [h]; exact hlt⟩
        · exact Or.inr ⟨by omega, by push_cast at h ⊢; omega, h.2.2.1,
            lt_trans hlt h.2.2.2⟩
      · intro j hj
        cases j with
        | zero => simpa using H1
        | succ j =>
          have hcast : start + ((j + 1 : Nat) : Int) = (start + 1) + (j : Int) := by
            push_cast
            ring
          rw [hcast]
          exact H3 j (by omega)
      · intro j hj hs
        cases j with
        | zero =>
          rcases H2 with h | h
          · exfalso
            rw [h] at hs
            simp only [Nat.cast_zero, add_zero] at hs
            exact lt_irrefl start hs
          · simpa using h.2.2.2
        | succ j =>
          have hcast : start + ((j + 1 : Nat) : Int) = (start + 1) + (j : Int) := by
            push_cast
            ring
          rw [hcast] at hs ⊢
          exact H4 j (by omega) hs
    · rw [if_neg hlt]
      obtain ⟨H1, H2, H3, H4⟩ := ih (start + 1) bs bc (by omega)
      refine ⟨H1, ?_, ?_, ?_⟩
      · rcases H2 with h | h
        · exact Or.inl h
        · exact Or.inr ⟨by omega, by push_cast at h ⊢; omega, h.2.2.1, h.2.2.2⟩
      · intro j hj
        cases j with
        | zero =>
          simp only [Nat.cast_zero, add_zero]
          exact le_trans (Nat.not_lt.mp hlt) H1
        | succ j =>
          have hcast : start + ((j + 1 : Nat) : Int) = (start + 1) + (j : Int) := by
            push_cast
            ring
          rw [hcast]
          exact H3 j (by omega)
      · intro j hj hs
        cases j with
        | zero =>
          rcases H2 with h | h
          · rw [h] at hs
            simp only [Nat.cast_zero, add_zero] at hs
            omega
          · simp only [Nat.cast_zero, add_zero]
            exact lt_of_le_of_lt (Nat.not_lt.mp hlt) h.2.2.2
        | succ j =>
          have hcast : start + ((j + 1 : Nat) : Int) = (start + 1) + (j : Int) := by
            push_cast
            ring
          rw [hcast] at hs ⊢
          exact H4 j (by omega) hs

/-- C5: on a song with at least one onset, when the onset pitch span exceeds
the 36-semitone window `find_best_window` returns a start whose recorded
count is the number of onsets inside `[start, start+35]`, no 36-semitone
window anywhere contains more onsets, and any scanned start strictly below
the returned one contains strictly fewer (the earliest maximum wins, since
only strictly greater counts replace the best); when the span already fits,
the result is the actual minimum onset pitch together with the total onset
count. -/
theorem find_best_window_maximal (events : List NoteEvent)
    (hne : onsetPitches events ≠ []) :
    (GAME_RANGE < listMax (onsetPitches events) - listMin (onsetPitches events) + 1 →
      (find_best_window events).2 =
        windowCount (onsetPitches events) (find_best_window events).1 ∧
      (∀ s : Int, windowCount (onsetPitches events) s ≤ (find_best_window events).2) ∧
      (∀ s : Int, listMin (onsetPitches events) ≤ s →
        s + GAME_RANGE - 1 ≤ listMax (onsetPitches events) →
        s < (find_best_window events).1 →
        windowCount (onsetPitches events) s < (find_best_window events).2)) ∧
    (listMax (onsetPitches events) - listMin (onsetPitches events) + 1 ≤ GAME_RANGE →
      find_best_window events =
        (listMin (onsetPitches events), (onsetPitches events).length)) := by
  have hGR : GAME_RANGE = 36 := by decide
  set notes := onsetPitches events with hnotes
  set mn := listMin notes with hmn
  set mx := listMax notes with hmx
  have hie : notes.isEmpty = false := List.isEmpty_eq_false.mpr hne
  have hmem : mn ∈ notes := by
    rw [hmn]
    exact listMin_mem notes hne
  have hmnle : ∀ x ∈ notes, mn ≤ x := by
    intro x hx
    rw [hmn]
    exact listMin_le notes x hx
  have hmxge : ∀ x ∈ notes, x ≤ mx := by
    intro x hx
    rw [hmx]
    exact listMax_ge notes x hx
  have hmnmx : mn ≤ mx := hmxge mn hmem
  constructor
  · intro hspan
    have hsc : find_best_window events =
        scanLoop notes mn ((mx - mn - 34).toNat) (mn, 0) := by
      simp only [find_best_window]
      rw [← hnotes, ← hmn, ← hmx, if_neg (by simp [hie]), if_neg (by omega)]
    have K := scanLoop_spec notes ((mx - mn - 34).toNat) mn mn 0 le_rfl
    obtain ⟨K1, K2, K3, K4⟩ := K
    have hwc0 : 0 < windowCount notes mn :=
      windowCount_pos notes mn mn hmem le_rfl (by omega)
    have hmain :
        windowCount notes (scanLoop notes mn ((mx - mn - 34).toNat) (mn, 0)).1 =
          (scanLoop notes mn ((mx - mn - 34).toNat) (mn, 0)).2 ∧
        0 < (scanLoop notes mn ((mx - mn - 34).toNat) (mn, 0)).2 := by
      rcases K2 with h | h
      · exfalso
        have h0 := K3 0 (by omega)
        simp only [Nat.cast_zero, add_zero] at h0
        rw [h] at h0
        have h1 : windowCount notes mn ≤ 0 := h0
        omega
      · exact ⟨h.2.2.1, h.2.2.2⟩
    rw [hsc]
    refine ⟨hmain.1.symm, ?_, ?_⟩
    · intro s
      by_cases hs1 : s < mn
      · have h1 : windowCount notes s ≤ windowCount notes mn :=
          windowCount_mono notes s mn fun n hn _ hB => ⟨hmnle n hn, by omega⟩
        have h2 := K3 0 (by omega)
        simp only [Nat.cast_zero, add_zero] at h2
        exact le_trans h1 h2
      · by_cases hs2 : mx - 35 < s
        · have h1 : windowCount notes s ≤ windowCount notes (mx - 35) :=
            windowCount_mono notes s (mx - 35) fun n hn hA _ =>
              ⟨by omega, by have := hmxge n hn; omega⟩
          have h2 := K3 ((mx - 35 - mn).toNat) (by omega)
          have hc2 : mn + (((mx - 35 - mn).toNat : Nat) : Int) = mx - 35 := by omega
          rw [hc2] at h2
          exact le_trans h1 h2
        · have h2 := K3 ((s - mn).toNat) (by omega)
          have hc2 : mn + (((s - mn).toNat : Nat) : Int) = s := by omega
          rw [hc2] at h2
          exact h2
    · intro s hsl hsr hlt
      have hc2 : mn + (((s - mn).toNat : Nat) : Int) = s := by omega
      have h2 := K4 ((s - mn).toNat) (by omega)
      rw [hc2] at h2
      exact h2 hlt
  · intro hfit
    simp only [find_best_window]
    rw [← hnotes, ← hmn, ← hmx, if_neg (by simp [hie]), if_pos (by omega)]

/-- Witness for C5 on two onsets at pitches 0 and 71 (span 72, exceeding the
36-wide window): the returned count is the window count at the returned
start, and the fixed-octave sub-window starting at 36 contains no more
onsets. -/
theorem find_best_window_maximal_witness :
    (find_best_window [⟨0, 100, 0, true⟩, ⟨71, 100, 1, true⟩]).2 =
      windowCount (onsetPitches [⟨0, 100, 0, true⟩, ⟨71, 100, 1, true⟩])
        (find_best_window [⟨0, 100, 0, true⟩, ⟨71, 100, 1, true⟩]).1 ∧
    windowCount (onsetPitches [⟨0, 100, 0, true⟩, ⟨71, 100, 1, true⟩]) 36 ≤
      (find_best_window [⟨0, 100, 0, true⟩, ⟨71, 100, 1, true⟩]).2 :=
  ⟨((find_best_window_maximal [⟨0, 100, 0, true⟩, ⟨71, 100, 1, true⟩]
      (by decide)).1 (by decide)).1,
   ((find_best_window_maximal [⟨0, 100, 0, true⟩, ⟨71, 100, 1, true⟩]
      (by decide)).1 (by decide)).2.1 36⟩

end AutoBard
